import Mathlib

/-!
# SimplifyNestedClass (clang_delta)

A shallow embedding of `src/clang_delta/SimplifyNestedClass.cpp`: the collection
visitor with its structural matcher `handleOneCXXRecordDecl`, the rewrite visitor
`VisitRecordTypeLoc`, `removeOuterClass` and the driver `HandleTranslationUnit`.

Pointers become optional values (`none` is the null pointer), the two `int`
counters are `Int` (the counter is raised once per visited class, so it stays far from
the 32-bit bound), `TransAssert` failures and null dereferences are faults of an
`Except`, and the clang `Rewriter` is the list of edit requests it has received,
in the order in which they were issued. The two traversals are given by the lists of
nodes they hand to the visitors, in traversal order.
-/

deriving instance DecidableEq for Except

namespace SimplifyNestedClass

/-! ## Data model -/

/-- A clang `SourceLocation`: an offset into the source buffer, `none` when the
location is invalid. -/
abbrev SourceLocation := Option Nat

/-- A clang `SourceRange`, as built by `SourceRange(Begin, End)`. -/
structure SourceRange where
  Begin : SourceLocation
  End : SourceLocation
  deriving DecidableEq, Repr

/-- Which of the two `dyn_cast`s of the member scan (line 162) succeeds on a member
declaration: `dyn_cast<CXXRecordDecl>`, `dyn_cast<ClassTemplateDecl>`, or neither. -/
inductive DeclKind where
  | CXXRecord
  | ClassTemplate
  | Other
  deriving DecidableEq, Repr

/-- A member declaration `*I` of a class, as the member scan sees it. -/
structure Decl where
  kind : DeclKind
  isImplicit : Bool
  canonicalDecl : Nat
  isThisDeclarationADefinition : Bool
  deriving DecidableEq, Repr

/-- A `CXXRecordDecl` node. `canonicalDecl` identifies the entity (the value of
`getCanonicalDecl()`), shared by all redeclarations of one class. -/
structure CXXRecordDecl where
  canonicalDecl : Nat
  name : String
  isThisDeclarationADefinition : Bool
  describedClassTemplate : Bool
  numBases : Nat
  decls : List Decl
  locStart : SourceLocation
  rBraceLoc : SourceLocation
  deriving DecidableEq, Repr

/-- A `CXXRecordDecl *` handed to `VisitCXXRecordDecl` by the traversal, together
with what `getDefinition()` answers on it (`none` when `hasDefinition()` is false). -/
structure RecordDeclNode where
  decl : CXXRecordDecl
  getDefinition : Option CXXRecordDecl
  deriving DecidableEq, Repr

/-- A `RecordTypeLoc` handed to `VisitRecordTypeLoc`: the result of
`dyn_cast<CXXRecordDecl>(TLoc.getDecl())`, the two ends of the occurrence, and the
answer of `isBeforeColonColon(TLoc)` (the flag of the spec's TypeReference saying
that the occurrence stands before a scope-resolution marker). -/
structure RecordTypeLoc where
  getDecl : Option CXXRecordDecl
  beginLoc : SourceLocation
  endLoc : SourceLocation
  isBeforeColonColon : Bool
  deriving DecidableEq, Repr

/-- The run outcome `TransError`; `TransSuccess` is the value before any error is set. -/
inductive TransformationError where
  | TransSuccess
  | TransInternalError
  | TransMaxInstanceError
  deriving DecidableEq, Repr

/-- One request received by the rewriter. -/
inductive Edit where
  | RemoveText (range : SourceRange)
  | ReplaceText (range : SourceRange) (text : String)
  deriving DecidableEq, Repr

/-- The ways a run can stop without returning. -/
inductive Fault where
  | assertFailed
  | nullDeref
  deriving DecidableEq, Repr

/-- The mutable members of the `SimplifyNestedClass` instance. -/
structure State where
  ValidInstanceNum : Int
  TheBaseCXXRD : Option CXXRecordDecl
  TransError : TransformationError
  TheRewriter : List Edit
  deriving DecidableEq, Repr

/-- What the host supplies to one run: the language mode, the query flag, the target
ordinal, the predicate `isSpecialRecordDecl` of the base class, the nodes met by the
two traversals in traversal order, the source buffer, and the diagnostic state read
at the end of the run. -/
structure Env where
  isCLangOpt : Bool
  QueryInstanceOnly : Bool
  TransformationCounter : Int
  isSpecialRecordDecl : CXXRecordDecl → Bool
  recordDecls : List RecordDeclNode
  recordTypeLocs : List RecordTypeLoc
  buffer : List Char
  hasErrorOccurred : Bool
  hasFatalErrorOccurred : Bool

/-- The members as the constructors leave them: counter zero, no selection, no error,
no edit. -/
def initialState : State :=
  { ValidInstanceNum := 0, TheBaseCXXRD := none,
    TransError := TransformationError.TransSuccess, TheRewriter := [] }

/-! ## Rewrite helpers -/

/-- Modelled from the spec: `RewriteUtils::getLocationUntil` is not under src. It is
the edit-service query "locate the position of character C until a given location":
the location of the first `c` at or after `loc`, invalid when `loc` is invalid or no
`c` follows. -/
def getLocationUntil (buf : List Char) (loc : SourceLocation) (c : Char) : SourceLocation :=
  match loc with
  | none => none
  | some o =>
    match (buf.drop o).findIdx? (fun x => x == c) with
    | none => none
    | some i => some (o + i)

/-- Modelled from the spec: `RewriteUtils::getLocationAfter` is not under src. It is
the edit-service query "locate the position of character C after a given location":
the location just after the first `c` found at or after `loc`. -/
def getLocationAfter (buf : List Char) (loc : SourceLocation) (c : Char) : SourceLocation :=
  match loc with
  | none => none
  | some o =>
    match (buf.drop o).findIdx? (fun x => x == c) with
    | none => none
    | some i => some (o + i + 1)

/-- The call `TheRewriter.RemoveText(range)`. -/
def State.RemoveText (s : State) (range : SourceRange) : State :=
  { s with TheRewriter := s.TheRewriter ++ [Edit.RemoveText range] }

/-- Modelled from the spec: `RewriteUtils::replaceRecordType` is not under src. It
replaces the reference's full span with the given text. -/
def State.replaceRecordType (s : State) (TLoc : RecordTypeLoc) (Name : String) : State :=
  { s with TheRewriter :=
      s.TheRewriter ++ [Edit.ReplaceText ⟨TLoc.beginLoc, TLoc.endLoc⟩ Name] }

/-! ## The collection pass -/

/-- The member loop of `handleOneCXXRecordDecl` (lines 158-167), started with the
current value of `HasClassDef`. `none` is the `return` of line 164; `some h` is the
end of the loop with `HasClassDef = h`. -/
def scanDecls : List Decl → Bool → Option Bool
  | [], HasClassDef => some HasClassDef
  | I :: rest, HasClassDef =>
    if I.isImplicit then scanDecls rest HasClassDef
    else if I.kind = DeclKind.CXXRecord ∨ I.kind = DeclKind.ClassTemplate then
      if HasClassDef then none else scanDecls rest true
    else scanDecls rest HasClassDef

/-- `SimplifyNestedClass::handleOneCXXRecordDecl` (lines 149-175), with the target
ordinal `TransformationCounter` passed in. -/
def handleOneCXXRecordDecl (TransformationCounter : Int) (s : State)
    (CXXRD : Option CXXRecordDecl) : Except Fault State :=
  match CXXRD with
  | none => Except.error Fault.assertFailed
  | some rd =>
    if !rd.isThisDeclarationADefinition then Except.error Fault.assertFailed
    else if rd.describedClassTemplate || rd.numBases != 0 then Except.ok s
    else
      match scanDecls rd.decls false with
      | none => Except.ok s
      | some false => Except.ok s
      | some true =>
        let s1 := { s with ValidInstanceNum := s.ValidInstanceNum + 1 }
        if s1.ValidInstanceNum = TransformationCounter then
          Except.ok { s1 with TheBaseCXXRD := some rd }
        else Except.ok s1

/-- `SimplifyNestedClassVisitor::VisitCXXRecordDecl` (lines 54-61). The visitor always
answers `true`, so only the effect on the instance is kept. -/
def VisitCXXRecordDecl (env : Env) (s : State) (CXXRD : RecordDeclNode) :
    Except Fault State :=
  if env.isSpecialRecordDecl CXXRD.decl || !CXXRD.getDefinition.isSome then Except.ok s
  else handleOneCXXRecordDecl env.TransformationCounter s CXXRD.getDefinition

/-- `CollectionVisitor->TraverseDecl(...)`: the visitor is called on every
`CXXRecordDecl` node in traversal order and never stops the traversal. -/
def collectionTraverse (env : Env) : State → List RecordDeclNode → Except Fault State
  | s, [] => Except.ok s
  | s, n :: rest =>
    match VisitCXXRecordDecl env s n with
    | Except.error e => Except.error e
    | Except.ok s1 => collectionTraverse env s1 rest

/-! ## The rewrite pass -/

/-- `SimplifyNestedClassRewriteVisitor::VisitRecordTypeLoc` (lines 77-96). -/
def VisitRecordTypeLoc (env : Env) (s : State) (TLoc : RecordTypeLoc) :
    Except Fault State :=
  match TLoc.getDecl with
  | none => Except.ok s
  | some RD =>
    match s.TheBaseCXXRD with
    | none => Except.error Fault.nullDeref
    | some base =>
      if RD.canonicalDecl ≠ base.canonicalDecl then Except.ok s
      else if TLoc.isBeforeColonColon then
        let EndLoc := getLocationAfter env.buffer TLoc.endLoc ':'
        Except.ok (s.RemoveText ⟨TLoc.beginLoc, EndLoc⟩)
      else
        Except.ok (s.replaceRecordType TLoc (base.name ++ " "))

/-- `RewriteVisitor->TraverseDecl(...)`: the visitor is called on every
`RecordTypeLoc` in traversal order. -/
def rewriteTraverse (env : Env) : State → List RecordTypeLoc → Except Fault State
  | s, [] => Except.ok s
  | s, t :: rest =>
    match VisitRecordTypeLoc env s t with
    | Except.error e => Except.error e
    | Except.ok s1 => rewriteTraverse env s1 rest

/-- `SimplifyNestedClass::removeOuterClass` (lines 132-147). -/
def removeOuterClass (env : Env) (s : State) : Except Fault State :=
  match s.TheBaseCXXRD with
  | none => Except.error Fault.assertFailed
  | some base =>
    let LocStart := base.locStart
    let LocEnd := getLocationUntil env.buffer LocStart '{'
    if !LocEnd.isSome then Except.error Fault.assertFailed
    else
      let s1 := s.RemoveText ⟨LocStart, LocEnd⟩
      let LocStart2 := base.rBraceLoc
      let LocEnd2 := getLocationUntil env.buffer LocStart2 ';'
      if LocStart2.isNone || LocEnd2.isNone then Except.ok s1
      else Except.ok (s1.RemoveText ⟨LocStart2, LocEnd2⟩)

/-! ## The driver -/

/-- `SimplifyNestedClass::HandleTranslationUnit` (lines 105-130). The call
`setSuppressAllDiagnostics(false)` only configures the host's diagnostics and
`RewriteVisitor` is the non-null visitor made by `Initialize`, so neither leaves a
trace here. -/
def HandleTranslationUnit (env : Env) (s : State) : Except Fault State :=
  let collected : Except Fault State :=
    if env.isCLangOpt then Except.ok { s with ValidInstanceNum := 0 }
    else collectionTraverse env s env.recordDecls
  match collected with
  | Except.error e => Except.error e
  | Except.ok s1 =>
    if env.QueryInstanceOnly then Except.ok s1
    else if env.TransformationCounter > s1.ValidInstanceNum then
      Except.ok { s1 with TransError := TransformationError.TransMaxInstanceError }
    else
      match rewriteTraverse env s1 env.recordTypeLocs with
      | Except.error e => Except.error e
      | Except.ok s2 =>
        match removeOuterClass env s2 with
        | Except.error e => Except.error e
        | Except.ok s3 =>
          if env.hasErrorOccurred || env.hasFatalErrorOccurred then
            Except.ok { s3 with TransError := TransformationError.TransInternalError }
          else Except.ok s3

/-! ## Vocabulary of the properties -/

/-- A member that the scan treats as a nested class: one of the two `dyn_cast`s of
line 162 succeeds on it. -/
def Decl.isNestedClass (m : Decl) : Bool :=
  decide (m.kind = DeclKind.CXXRecord ∨ m.kind = DeclKind.ClassTemplate)

/-- The non-implicit members of a class, in declaration order. -/
def CXXRecordDecl.explicitDecls (rd : CXXRecordDecl) : List Decl :=
  rd.decls.filter (fun m => !m.isImplicit)

/-- The non-implicit nested class members of a class, in declaration order. -/
def CXXRecordDecl.nestedClasses (rd : CXXRecordDecl) : List Decl :=
  rd.decls.filter (fun m => !m.isImplicit && m.isNestedClass)

/-- The decision of the structural matcher on a definition: `handleOneCXXRecordDecl`
passes the guard of line 153 and leaves the member loop with `HasClassDef` set, so
that it reaches the increment of line 171. -/
def accepts (rd : CXXRecordDecl) : Bool :=
  !(rd.describedClassTemplate || rd.numBases != 0) && scanDecls rd.decls false == some true

/-- The definition that `VisitCXXRecordDecl` hands to `handleOneCXXRecordDecl` on a
node, if it hands one. -/
def visitedDefinition (env : Env) (n : RecordDeclNode) : Option CXXRecordDecl :=
  if env.isSpecialRecordDecl n.decl then none else n.getDefinition

/-- The class definitions handed to the matcher over a list of nodes, in traversal
order (one entry per visit). -/
def handledDefinitions (env : Env) (nodes : List RecordDeclNode) : List CXXRecordDecl :=
  nodes.filterMap (visitedDefinition env)

/-- The accepted definitions over a list of nodes, in traversal order. -/
def wrappersOf (env : Env) (nodes : List RecordDeclNode) : List CXXRecordDecl :=
  (handledDefinitions env nodes).filter accepts

/-- The qualifying wrappers met by the collection traversal of a run. -/
def wrappers (env : Env) : List CXXRecordDecl :=
  wrappersOf env env.recordDecls

/-- Whatever `getDefinition()` answers is a definition (the contract of the clang
accessor). -/
def definitionsAreDefinitions (nodes : List RecordDeclNode) : Bool :=
  nodes.all fun n =>
    match n.getDefinition with
    | none => true
    | some d => d.isThisDeclarationADefinition

/-- The inner class of a wrapper: its first non-implicit nested class member. -/
def CXXRecordDecl.innerClass (rd : CXXRecordDecl) : Option Decl :=
  rd.nestedClasses.head?

/-- Whether the visit of a node counts an instance: the node is not special and the
definition it leads to is accepted. -/
def countsAsInstance (env : Env) (n : RecordDeclNode) : Bool :=
  match visitedDefinition env n with
  | none => false
  | some d => accepts d

/-! ## The rewriter's text -/

/-- Characters that continue an identifier token. -/
def isIdentifierChar (c : Char) : Bool :=
  c.isAlphanum || c == '_'

/-- The length of the token that starts at offset `o`: a maximal run of identifier
characters, or else a single character. The ranges issued by this pass end at an
identifier or at one of `:`, `\x7b`, `;`. -/
def tokenLength (buf : List Char) (o : Nat) : Nat :=
  match buf.drop o with
  | [] => 0
  | c :: rest =>
    if isIdentifierChar c then ((c :: rest).takeWhile isIdentifierChar).length else 1

/-- The characters a token range covers, as a start offset and a size: from the
start of the range through the end of the token at its end. A range with an invalid
or reversed end covers nothing. -/
def rangeSpan (buf : List Char) (r : SourceRange) : Option (Nat × Nat) :=
  match r.Begin, r.End with
  | some b, some e => if b ≤ e then some (b, e - b + tokenLength buf e) else none
  | _, _ => none

/-- The range an edit request acts on. -/
def Edit.range : Edit → SourceRange
  | Edit.RemoveText r => r
  | Edit.ReplaceText r _ => r

/-- Whether the edit takes the original character at offset `i` away. -/
def Edit.covers (buf : List Char) (e : Edit) (i : Nat) : Bool :=
  match rangeSpan buf e.range with
  | some (b, n) => decide (b ≤ i ∧ i < b + n)
  | none => false

/-- The text the edit puts in front of the original character at offset `i`. -/
def Edit.inserted (buf : List Char) (e : Edit) (i : Nat) : List Char :=
  match e with
  | Edit.RemoveText _ => []
  | Edit.ReplaceText r text =>
    match rangeSpan buf r with
    | some (b, _) => if b = i then text.toList else []
    | none => []

/-- The buffer after a batch of edits, all of them given in offsets of the original
buffer. -/
def rewrittenText (buf : List Char) (edits : List Edit) : List Char :=
  buf.enum.flatMap fun p =>
    edits.flatMap (fun e => e.inserted buf p.1) ++
      (if edits.any (fun e => e.covers buf p.1) then [] else [p.2])

/-! ## Example programs -/

/-- The implicit injected-class-name member that every class definition carries. -/
def injectedClassName (canonical : Nat) : Decl :=
  { kind := DeclKind.CXXRecord, isImplicit := true, canonicalDecl := canonical,
    isThisDeclarationADefinition := false }

/-- A non-implicit member that is the definition of a nested class. -/
def nestedClassMember (canonical : Nat) : Decl :=
  { kind := DeclKind.CXXRecord, isImplicit := false, canonicalDecl := canonical,
    isThisDeclarationADefinition := true }

/-- A class definition without base class or described template: its members are the
injected class name followed by `members`. -/
def plainClass (canonical : Nat) (name : String) (members : List Decl)
    (locStart rBraceLoc : Nat) : CXXRecordDecl :=
  { canonicalDecl := canonical, name := name, isThisDeclarationADefinition := true,
    describedClassTemplate := false, numBases := 0,
    decls := injectedClassName canonical :: members,
    locStart := some locStart, rBraceLoc := some rBraceLoc }

/-- A node that is a definition (its own `getDefinition()`). -/
def definitionNode (rd : CXXRecordDecl) : RecordDeclNode :=
  { decl := rd, getDefinition := some rd }

/-- The text `class A \x7b class B \x7b\x7d; \x7d; A::B v;` (Example 2 of the spec). -/
def nestedText : List Char :=
  "class A \x7b class B \x7b\x7d; \x7d; A::B v;".toList

/-- The definition of the inner class `B` in `nestedText`. -/
def classB : CXXRecordDecl := plainClass 1 "B" [] 10 19

/-- The definition of the wrapper `A` in `nestedText`. -/
def classA : CXXRecordDecl := plainClass 0 "A" [nestedClassMember 1] 0 22

/-- The occurrence of `A` in `A::B v;`: it names the wrapper and stands before `::`. -/
def referenceToA : RecordTypeLoc :=
  { getDecl := some classA, beginLoc := some 25, endLoc := some 25,
    isBeforeColonColon := true }

/-- The occurrence of `B` in `A::B v;`: it names the inner class. -/
def referenceToB : RecordTypeLoc :=
  { getDecl := some classB, beginLoc := some 28, endLoc := some 28,
    isBeforeColonColon := false }

/-- A run on `nestedText` with target ordinal `k`. -/
def nestedEnv (k : Int) (queryOnly : Bool) : Env :=
  { isCLangOpt := false, QueryInstanceOnly := queryOnly, TransformationCounter := k,
    isSpecialRecordDecl := fun _ => false,
    recordDecls := [definitionNode classA, definitionNode classB],
    recordTypeLocs := [referenceToA, referenceToB],
    buffer := nestedText, hasErrorOccurred := false, hasFatalErrorOccurred := false }

/-- The class `A` of `class Base \x7b\x7d; class A : public Base \x7b class B\x7b\x7d; \x7d;`
(Example 4 of the spec): one nested class and one base class. -/
def derivedA : CXXRecordDecl :=
  { plainClass 1 "A" [nestedClassMember 2] 15 50 with numBases := 1 }

/-- A run on Example 4 with target ordinal 1. -/
def derivedEnv : Env :=
  { isCLangOpt := false, QueryInstanceOnly := false, TransformationCounter := 1,
    isSpecialRecordDecl := fun _ => false,
    recordDecls := [definitionNode (plainClass 0 "Base" [] 0 12), definitionNode derivedA,
      definitionNode (plainClass 2 "B" [] 39 47)],
    recordTypeLocs := [],
    buffer := "class Base \x7b\x7d; class A : public Base \x7b class B\x7b\x7d; \x7d;".toList,
    hasErrorOccurred := false, hasFatalErrorOccurred := false }

/-- The second wrapper `C` of
`class A\x7bclass X\x7b\x7d;\x7d; class C\x7bclass Y\x7b\x7d;\x7d;` (Example 3 of the spec). -/
def classC : CXXRecordDecl := plainClass 2 "C" [nestedClassMember 3] 21 39

/-- A run on Example 3 (two independent wrappers, `A` first) with target ordinal `k`. -/
def twoWrappersEnv (k : Int) : Env :=
  { isCLangOpt := false, QueryInstanceOnly := false, TransformationCounter := k,
    isSpecialRecordDecl := fun _ => false,
    recordDecls := [definitionNode (plainClass 0 "A" [nestedClassMember 1] 0 18),
      definitionNode (plainClass 1 "X" [] 8 16), definitionNode classC,
      definitionNode (plainClass 3 "Y" [] 29 37)],
    recordTypeLocs := [],
    buffer := "class A\x7bclass X\x7b\x7d;\x7d; class C\x7bclass Y\x7b\x7d;\x7d;".toList,
    hasErrorOccurred := false, hasFatalErrorOccurred := false }

/-- The state in which the collection pass leaves a fresh run on `nestedText` with
target ordinal 1: one instance counted, the wrapper `A` selected. -/
def nestedSelected : State :=
  { initialState with ValidInstanceNum := 1, TheBaseCXXRD := some classA }

/-- A non-implicit member that is not a class, such as the field `int x;`. -/
def fieldMember (canonical : Nat) : Decl :=
  { kind := DeclKind.Other, isImplicit := false, canonicalDecl := canonical,
    isThisDeclarationADefinition := true }

/-- The class `A` of `class A \x7b class B \x7b\x7d; int x; \x7d;`: a nested class next to
a field. -/
def classWithField : CXXRecordDecl :=
  plainClass 0 "A" [nestedClassMember 1, fieldMember 2] 0 29

/-- The member `class B;`: a nested class declaration without a body. -/
def forwardMember (canonical : Nat) : Decl :=
  { kind := DeclKind.CXXRecord, isImplicit := false, canonicalDecl := canonical,
    isThisDeclarationADefinition := false }

/-- The class `A` of `class A \x7b class B; \x7d;`: its only nested class member is a
forward declaration. -/
def classWithForward : CXXRecordDecl :=
  plainClass 0 "A" [forwardMember 1] 0 19

/-- The definition of `A` in `class A; class A \x7b class B \x7b\x7d; \x7d;`. -/
def redeclaredA : CXXRecordDecl := plainClass 0 "A" [nestedClassMember 1] 9 31

/-- The forward declaration `class A;` of the same entity: not a definition, no
members. -/
def forwardA : CXXRecordDecl :=
  { canonicalDecl := 0, name := "A", isThisDeclarationADefinition := false,
    describedClassTemplate := false, numBases := 0, decls := [],
    locStart := some 0, rBraceLoc := none }

/-- A run on `class A; class A \x7b class B \x7b\x7d; \x7d;` with target ordinal `k`: the
traversal meets the forward declaration of `A`, then its definition, then `B`; on both
nodes of `A`, `getDefinition()` answers the definition. -/
def redeclaredEnv (k : Int) : Env :=
  { isCLangOpt := false, QueryInstanceOnly := false, TransformationCounter := k,
    isSpecialRecordDecl := fun _ => false,
    recordDecls := [{ decl := forwardA, getDefinition := some redeclaredA },
      definitionNode redeclaredA, definitionNode (plainClass 1 "B" [] 19 28)],
    recordTypeLocs := [],
    buffer := "class A; class A \x7b class B \x7b\x7d; \x7d;".toList,
    hasErrorOccurred := false, hasFatalErrorOccurred := false }

/-- The edits that `removeOuterClass` issues for the wrapper `w`: the removal of the
header, from the declaration start to the opening brace, followed, when the closing
brace and the `;` after it can both be located, by the removal from the closing brace
to that `;`. -/
def excisedSpans (env : Env) (w : CXXRecordDecl) : List Edit :=
  Edit.RemoveText ⟨w.locStart, getLocationUntil env.buffer w.locStart '{'⟩ ::
    (if w.rBraceLoc.isNone || (getLocationUntil env.buffer w.rBraceLoc ';').isNone then []
     else [Edit.RemoveText ⟨w.rBraceLoc, getLocationUntil env.buffer w.rBraceLoc ';'⟩])

/-- The wrapper that the target ordinal designates: the accepted definition number
`TransformationCounter` (1-based) of the collection traversal, if there is one. -/
def selectedWrapper (env : Env) : Option CXXRecordDecl :=
  (wrappers env)[(env.TransformationCounter - 1).toNat]?

/-- Whether the opening brace of the designated wrapper can be located from its
declaration start, which is what the assertion of line 138 asks. -/
def headerLocatable (env : Env) : Bool :=
  match selectedWrapper env with
  | none => false
  | some w => (getLocationUntil env.buffer w.locStart '{').isSome

/-- Whether no visited reference resolves to a class canonically identical to `w`. -/
def unreferenced (env : Env) (w : CXXRecordDecl) : Bool :=
  env.recordTypeLocs.all fun t =>
    match t.getDecl with
    | none => true
    | some RD => decide (RD.canonicalDecl ≠ w.canonicalDecl)

/-- A run in C mode on `class A \x7b class B \x7b\x7d; \x7d; A::B v;`, whose node list
holds a class that the matcher would accept. -/
def cModeEnv (k : Int) (queryOnly : Bool) : Env :=
  { nestedEnv k queryOnly with isCLangOpt := true }

/-- The text `class A \x7b class B \x7b int x; \x7d; \x7d;` (Example 1 of the spec). -/
def simpleText : List Char :=
  "class A \x7b class B \x7b int x; \x7d; \x7d;".toList

/-- The definition of the wrapper `A` in `simpleText`. -/
def simpleA : CXXRecordDecl := plainClass 0 "A" [nestedClassMember 1] 0 30

/-- A run on `simpleText` with target ordinal 1: the traversal meets `A`, then `B` with
its field `x`; no `RecordTypeLoc` occurs in the text. -/
def simpleEnv : Env :=
  { isCLangOpt := false, QueryInstanceOnly := false, TransformationCounter := 1,
    isSpecialRecordDecl := fun _ => false,
    recordDecls := [definitionNode simpleA,
      definitionNode (plainClass 1 "B" [fieldMember 2] 10 27)],
    recordTypeLocs := [],
    buffer := simpleText, hasErrorOccurred := false, hasFatalErrorOccurred := false }

/-- The instance after the run on `simpleText`: `A` counted and selected, the header
`class A \x7b` (offsets 0 to 8) and the tail `\x7d;` (offsets 30 to 31) removed. -/
def simpleResult : State :=
  { ValidInstanceNum := 1, TheBaseCXXRD := some simpleA,
    TransError := TransformationError.TransSuccess,
    TheRewriter := [Edit.RemoveText ⟨some 0, some 8⟩, Edit.RemoveText ⟨some 30, some 31⟩] }

/-! # Theorems -/

/-! ## The structural matcher -/

theorem handle_accepted (k : Int) (s : State) (rd : CXXRecordDecl)
    (hdef : rd.isThisDeclarationADefinition = true) (hacc : accepts rd = true) :
    handleOneCXXRecordDecl k s (some rd) =
      Except.ok
        (if s.ValidInstanceNum + 1 = k then
          { s with ValidInstanceNum := s.ValidInstanceNum + 1, TheBaseCXXRD := some rd }
         else { s with ValidInstanceNum := s.ValidInstanceNum + 1 }) := by
  unfold accepts at hacc
  simp only [Bool.and_eq_true, Bool.not_eq_true', beq_iff_eq] at hacc
  obtain ⟨hguard, hscan⟩ := hacc
  simp only [handleOneCXXRecordDecl, hdef, hguard, hscan]
  by_cases hk : s.ValidInstanceNum + 1 = k <;> simp [hk]

theorem handle_rejected (k : Int) (s : State) (rd : CXXRecordDecl)
    (hdef : rd.isThisDeclarationADefinition = true) (hacc : accepts rd = false) :
    handleOneCXXRecordDecl k s (some rd) = Except.ok s := by
  unfold accepts at hacc
  simp only [handleOneCXXRecordDecl, hdef]
  by_cases hguard : (rd.describedClassTemplate || rd.numBases != 0) = true
  · simp [hguard]
  · simp only [Bool.not_eq_true] at hguard
    simp only [hguard, Bool.not_false, Bool.true_and, beq_eq_false_iff_ne, ne_eq] at hacc
    simp only [hguard]
    cases hscan : scanDecls rd.decls false with
    | none => simp
    | some b =>
      cases b with
      | false => simp
      | true => exact absurd hscan hacc

theorem scanDecls_eq (l : List Decl) (h : Bool) :
    scanDecls l h =
      if 2 ≤ (l.filter (fun m => !m.isImplicit && m.isNestedClass)).length + h.toNat then none
      else some (decide
        ((l.filter (fun m => !m.isImplicit && m.isNestedClass)).length + h.toNat = 1)) := by
  induction l generalizing h with
  | nil => cases h <;> simp [scanDecls]
  | cons I rest ih =>
    unfold scanDecls
    by_cases himp : I.isImplicit = true
    · simp [himp, ih, List.filter_cons]
    · simp only [Bool.not_eq_true] at himp
      by_cases hk : I.kind = DeclKind.CXXRecord ∨ I.kind = DeclKind.ClassTemplate
      · have hn : I.isNestedClass = true := by simp [Decl.isNestedClass, hk]
        cases h with
        | true =>
          simp [himp, hk, hn, List.filter_cons]
        | false =>
          simp only [himp, hk, hn, List.filter_cons, ih true]
          simp
      · have hn : I.isNestedClass = false := by simp [Decl.isNestedClass, hk]
        simp [himp, hk, hn, List.filter_cons, ih]

theorem accepts_iff (rd : CXXRecordDecl) :
    accepts rd = true ↔
      rd.describedClassTemplate = false ∧ rd.numBases = 0 ∧ rd.nestedClasses.length = 1 := by
  unfold accepts CXXRecordDecl.nestedClasses
  rw [scanDecls_eq]
  cases rd.describedClassTemplate <;> by_cases hb : rd.numBases = 0 <;> simp [hb]
  intro h; omega

/-! ## The collection traversal -/

theorem visit_of_none (env : Env) (s : State) (n : RecordDeclNode)
    (h : visitedDefinition env n = none) : VisitCXXRecordDecl env s n = Except.ok s := by
  unfold visitedDefinition at h
  unfold VisitCXXRecordDecl
  by_cases hs : env.isSpecialRecordDecl n.decl = true
  · simp [hs]
  · simp only [Bool.not_eq_true] at hs
    simp only [hs, Bool.false_eq_true, if_false] at h
    simp [h]

theorem visit_of_some (env : Env) (s : State) (n : RecordDeclNode) (d : CXXRecordDecl)
    (h : visitedDefinition env n = some d) :
    VisitCXXRecordDecl env s n =
      handleOneCXXRecordDecl env.TransformationCounter s (some d) := by
  unfold visitedDefinition at h
  unfold VisitCXXRecordDecl
  by_cases hs : env.isSpecialRecordDecl n.decl = true
  · simp [hs] at h
  · simp only [Bool.not_eq_true] at hs
    simp only [hs, Bool.false_eq_true, if_false] at h
    simp [h, hs]

theorem definition_of_visited (env : Env) (n : RecordDeclNode) (rest : List RecordDeclNode)
    (d : CXXRecordDecl) (hwf : definitionsAreDefinitions (n :: rest) = true)
    (h : visitedDefinition env n = some d) : d.isThisDeclarationADefinition = true := by
  unfold visitedDefinition at h
  simp only [definitionsAreDefinitions, List.all_cons, Bool.and_eq_true] at hwf
  have h1 := hwf.1
  by_cases hs : env.isSpecialRecordDecl n.decl = true
  · simp [hs] at h
  · simp only [Bool.not_eq_true] at hs
    simp only [hs, Bool.false_eq_true, if_false] at h
    rw [h] at h1
    exact h1

theorem definitions_tail (n : RecordDeclNode) (rest : List RecordDeclNode)
    (hwf : definitionsAreDefinitions (n :: rest) = true) :
    definitionsAreDefinitions rest = true := by
  simp only [definitionsAreDefinitions, List.all_cons, Bool.and_eq_true] at hwf
  exact hwf.2

/-- The invariant of the collection traversal: it returns, the counter has grown by the
number of accepted visits, the outcome and the edits are untouched, and the selection
is the accepted visit at which the counter met the target, if it met it. -/
theorem collectionTraverse_spec (env : Env) (nodes : List RecordDeclNode) :
    ∀ s : State, definitionsAreDefinitions nodes = true →
      ∃ r, collectionTraverse env s nodes = Except.ok r ∧
        r.ValidInstanceNum = s.ValidInstanceNum + ((wrappersOf env nodes).length : Int) ∧
        r.TransError = s.TransError ∧ r.TheRewriter = s.TheRewriter ∧
        r.TheBaseCXXRD =
          (if s.ValidInstanceNum < env.TransformationCounter ∧
              env.TransformationCounter ≤
                s.ValidInstanceNum + ((wrappersOf env nodes).length : Int) then
            (wrappersOf env nodes)[(env.TransformationCounter - s.ValidInstanceNum - 1).toNat]?
           else s.TheBaseCXXRD) := by
  induction nodes with
  | nil =>
    intro s _
    refine ⟨s, rfl, by simp [wrappersOf, handledDefinitions], rfl, rfl, ?_⟩
    simp only [wrappersOf, handledDefinitions, List.filterMap_nil, List.filter_nil,
      List.length_nil]
    rw [if_neg (by push_cast; omega)]
  | cons n rest ih =>
    intro s hwf
    have hrest := definitions_tail n rest hwf
    cases hv : visitedDefinition env n with
    | none =>
      obtain ⟨r, hr, hV, hE, hR, hB⟩ := ih s hrest
      refine ⟨r, ?_, ?_, hE, hR, ?_⟩
      · simp only [collectionTraverse, visit_of_none env s n hv]; exact hr
      · simpa [wrappersOf, handledDefinitions, List.filterMap_cons, hv] using hV
      · simpa [wrappersOf, handledDefinitions, List.filterMap_cons, hv] using hB
    | some d =>
      have hdef := definition_of_visited env n rest d hwf hv
      cases hacc : accepts d with
      | false =>
        obtain ⟨r, hr, hV, hE, hR, hB⟩ := ih s hrest
        refine ⟨r, ?_, ?_, hE, hR, ?_⟩
        · simp only [collectionTraverse, visit_of_some env s n d hv,
            handle_rejected _ s d hdef hacc]
          exact hr
        · simpa [wrappersOf, handledDefinitions, List.filterMap_cons, hv, List.filter_cons,
            hacc] using hV
        · simpa [wrappersOf, handledDefinitions, List.filterMap_cons, hv, List.filter_cons,
            hacc] using hB
      | true =>
        have hw : wrappersOf env (n :: rest) = d :: wrappersOf env rest := by
          simp [wrappersOf, handledDefinitions, List.filterMap_cons, hv, List.filter_cons, hacc]
        by_cases hk : s.ValidInstanceNum + 1 = env.TransformationCounter
        · obtain ⟨r, hr, hV, hE, hR, hB⟩ :=
            ih { s with ValidInstanceNum := s.ValidInstanceNum + 1, TheBaseCXXRD := some d } hrest
          refine ⟨r, ?_, ?_, hE, hR, ?_⟩
          · simp only [collectionTraverse, visit_of_some env s n d hv,
              handle_accepted _ s d hdef hacc]
            rw [if_pos hk]
            exact hr
          · rw [hw, hV]; simp; omega
          · rw [hw, hB]
            have h0 : (env.TransformationCounter - s.ValidInstanceNum - 1).toNat = 0 := by omega
            simp only [h0, List.length_cons]
            rw [if_neg (by omega), if_pos (by constructor <;> push_cast <;> omega)]
            simp
        · obtain ⟨r, hr, hV, hE, hR, hB⟩ :=
            ih { s with ValidInstanceNum := s.ValidInstanceNum + 1 } hrest
          refine ⟨r, ?_, ?_, hE, hR, ?_⟩
          · simp only [collectionTraverse, visit_of_some env s n d hv,
              handle_accepted _ s d hdef hacc]
            rw [if_neg hk]
            exact hr
          · rw [hw, hV]; simp; omega
          · rw [hw, hB]
            simp only [List.length_cons]
            by_cases hin : s.ValidInstanceNum + 1 < env.TransformationCounter ∧
                env.TransformationCounter ≤
                  s.ValidInstanceNum + 1 + ((wrappersOf env rest).length : Int)
            · rw [if_pos hin, if_pos (by constructor <;> push_cast <;> omega)]
              have h1 : (env.TransformationCounter - s.ValidInstanceNum - 1).toNat =
                  (env.TransformationCounter - (s.ValidInstanceNum + 1) - 1).toNat + 1 := by omega
              rw [h1]
              simp
            · rw [if_neg hin, if_neg (by push_cast; omega)]

/-! ## The rewriter's text: no edit, same text -/

theorem rewrittenText_nil (buf : List Char) : rewrittenText buf [] = buf := by
  unfold rewrittenText
  simp only [List.flatMap_nil, List.any_nil, Bool.false_eq_true, if_false, List.nil_append]
  induction buf using List.reverseRecOn with
  | nil => rfl
  | append_singleton l a ih => simp [List.enum_append, ih, List.enumFrom_singleton]

/-! ## Claims -/

/-- C1: outside query-only mode, when the target ordinal exceeds the value of
`ValidInstanceNum` left by the collection step (the number of wrappers the collection
pass found, or zero in C mode), `HandleTranslationUnit` returns with the max-instance
outcome and has issued no edit: the rewriter holds the same requests as before, so the
text is unchanged (and equal to the source buffer in a fresh run). -/
theorem handleTranslationUnit_out_of_range (env : Env) (s : State)
    (hwf : definitionsAreDefinitions env.recordDecls = true)
    (hq : env.QueryInstanceOnly = false)
    (hk : env.TransformationCounter >
      (if env.isCLangOpt then 0 else s.ValidInstanceNum + ((wrappers env).length : Int))) :
    ∃ r, HandleTranslationUnit env s = Except.ok r ∧
      env.TransformationCounter > r.ValidInstanceNum ∧
      r.TransError = TransformationError.TransMaxInstanceError ∧
      r.TheRewriter = s.TheRewriter ∧
      rewrittenText env.buffer r.TheRewriter = rewrittenText env.buffer s.TheRewriter ∧
      (s.TheRewriter = [] → rewrittenText env.buffer r.TheRewriter = env.buffer) := by
  unfold HandleTranslationUnit
  by_cases hc : env.isCLangOpt = true
  · simp only [hc, if_true] at hk
    simp only [hc, if_true, hq, Bool.false_eq_true, if_false, if_pos hk]
    refine ⟨_, rfl, hk, rfl, rfl, rfl, ?_⟩
    intro h; simp only [h]; exact rewrittenText_nil _
  · simp only [hc, if_false] at hk
    obtain ⟨r, hr, hV, _, hR, _⟩ := collectionTraverse_spec env env.recordDecls s hwf
    have hk2 : env.TransformationCounter > r.ValidInstanceNum := by
      rw [hV]; exact hk
    simp only [hc, if_false, hr, hq, Bool.false_eq_true, if_pos hk2]
    refine ⟨_, rfl, hk2, rfl, hR, by simp only [hR], ?_⟩
    intro h; simp only [hR, h]; exact rewrittenText_nil _

/-- Witness of C1 on Example 4 of the spec. -/
theorem handleTranslationUnit_out_of_range_witness :
    ∃ r, HandleTranslationUnit derivedEnv initialState = Except.ok r ∧
      derivedEnv.TransformationCounter > r.ValidInstanceNum ∧
      r.TransError = TransformationError.TransMaxInstanceError ∧
      r.TheRewriter = initialState.TheRewriter ∧
      rewrittenText derivedEnv.buffer r.TheRewriter =
        rewrittenText derivedEnv.buffer initialState.TheRewriter ∧
      (initialState.TheRewriter = [] →
        rewrittenText derivedEnv.buffer r.TheRewriter = derivedEnv.buffer) :=
  handleTranslationUnit_out_of_range derivedEnv initialState (by decide) (by decide)
    (by decide)

/-- C2: in a collection pass started with the counter at zero, for every target ordinal
`k` with `1 ≤ k ≤` the number of qualifying wrappers met, the pass returns with
`TheBaseCXXRD` equal to the `k`-th qualifying wrapper in traversal order (1-based); and
whatever nodes the traversal visits after that, the selection stays the same wrapper. -/
theorem collection_selects_kth (env : Env) (s : State)
    (hwf : definitionsAreDefinitions env.recordDecls = true)
    (h0 : s.ValidInstanceNum = 0)
    (hk1 : 1 ≤ env.TransformationCounter)
    (hk2 : env.TransformationCounter ≤ ((wrappers env).length : Int)) :
    ∃ r w, collectionTraverse env s env.recordDecls = Except.ok r ∧
      (wrappers env)[(env.TransformationCounter - 1).toNat]? = some w ∧
      r.TheBaseCXXRD = some w ∧
      ∀ later : List RecordDeclNode, definitionsAreDefinitions later = true →
        ∃ r2, collectionTraverse env r later = Except.ok r2 ∧ r2.TheBaseCXXRD = some w := by
  obtain ⟨r, hr, hV, _, _, hB⟩ := collectionTraverse_spec env env.recordDecls s hwf
  have hV1 : r.ValidInstanceNum = s.ValidInstanceNum + ((wrappers env).length : Int) := hV
  have hidx : (env.TransformationCounter - 1).toNat < (wrappers env).length := by omega
  refine ⟨r, (wrappers env)[(env.TransformationCounter - 1).toNat], hr,
    List.getElem?_eq_getElem hidx, ?_, ?_⟩
  · rw [hB, h0, if_pos ⟨by omega, by simpa using hk2⟩]
    simp only [sub_zero]
    exact List.getElem?_eq_getElem hidx
  · intro later hl
    obtain ⟨r2, hr2, _, _, _, hB2⟩ := collectionTraverse_spec env later r hl
    refine ⟨r2, hr2, ?_⟩
    rw [hB2, if_neg (by rw [hV1, h0]; omega), hB, h0, if_pos ⟨by omega, by simpa using hk2⟩]
    simp only [sub_zero]
    exact List.getElem?_eq_getElem hidx

/-- Witness of C2 on Example 3 of the spec: with `k = 2` the second wrapper `C` is
selected. -/
theorem collection_selects_kth_witness :
    ∃ r w, collectionTraverse (twoWrappersEnv 2) initialState (twoWrappersEnv 2).recordDecls =
        Except.ok r ∧
      (wrappers (twoWrappersEnv 2))[((twoWrappersEnv 2).TransformationCounter - 1).toNat]? =
        some w ∧
      r.TheBaseCXXRD = some w ∧
      ∀ later : List RecordDeclNode, definitionsAreDefinitions later = true →
        ∃ r2, collectionTraverse (twoWrappersEnv 2) r later = Except.ok r2 ∧
          r2.TheBaseCXXRD = some w :=
  collection_selects_kth (twoWrappersEnv 2) initialState (by decide) (by decide) (by decide)
    (by decide)

/-- C3: a class definition with at least one base class, or with a described class
template, or with two or more non-implicit nested class / class-template members, leaves
the instance exactly as it was: `ValidInstanceNum` is not incremented and `TheBaseCXXRD`
is not set, whatever the other members and the target ordinal. -/
theorem handle_rejects_excluded (k : Int) (s : State) (rd : CXXRecordDecl)
    (hdef : rd.isThisDeclarationADefinition = true)
    (h : 1 ≤ rd.numBases ∨ rd.describedClassTemplate = true ∨ 2 ≤ rd.nestedClasses.length) :
    handleOneCXXRecordDecl k s (some rd) = Except.ok s := by
  apply handle_rejected k s rd hdef
  cases hacc : accepts rd with
  | false => rfl
  | true =>
    obtain ⟨h1, h2, h3⟩ := (accepts_iff rd).mp hacc
    rcases h with h | h | h
    · omega
    · rw [h1] at h; exact absurd h (by decide)
    · omega

/-- Witness of C3 on the class `A` of Example 4, which has a base class. -/
theorem handle_rejects_excluded_witness :
    handleOneCXXRecordDecl 1 initialState (some derivedA) = Except.ok initialState :=
  handle_rejects_excluded 1 initialState derivedA (by decide) (Or.inl (by decide))

/-- C4 (the code at the failing input): on `class A \x7b class B \x7b\x7d; int x; \x7d;`,
whose non-implicit members are one nested class and one field, the matcher accepts:
the counter goes from 0 to 1 and, with target ordinal 1, the class is selected. -/
theorem handle_accepts_class_with_field :
    classWithField.explicitDecls = [nestedClassMember 1, fieldMember 2] ∧
    (fieldMember 2).isNestedClass = false ∧
    handleOneCXXRecordDecl 1 initialState (some classWithField) =
      Except.ok { initialState with ValidInstanceNum := 1,
                                    TheBaseCXXRD := some classWithField } := by
  decide

/-- C8 (the code at the failing input): on `class A \x7b class B; \x7d;`, whose only
non-implicit nested class member is a declaration without a body, the matcher accepts:
the counter goes from 0 to 1 and, with target ordinal 1, the class is selected. -/
theorem handle_accepts_forward_member :
    classWithForward.explicitDecls = [forwardMember 1] ∧
    (forwardMember 1).isThisDeclarationADefinition = false ∧
    handleOneCXXRecordDecl 1 initialState (some classWithForward) =
      Except.ok { initialState with ValidInstanceNum := 1,
                                    TheBaseCXXRD := some classWithForward } := by
  decide

/-- C5 (counterexample): in the run on `class A \x7b class B \x7b\x7d; \x7d; A::B v;` with
target ordinal 1, the collection pass selects `A`, whose inner class is `B`. The
reference that resolves to the inner class `B` is left without an edit, and the
reference that resolves to the outer class `A` itself is edited. -/
theorem visitRecordTypeLoc_inner_counterexample :
    collectionTraverse (nestedEnv 1 false) initialState (nestedEnv 1 false).recordDecls =
      Except.ok nestedSelected ∧
    classA.innerClass = some (nestedClassMember 1) ∧
    referenceToB.getDecl.map (fun rd => rd.canonicalDecl) =
      some (nestedClassMember 1).canonicalDecl ∧
    VisitRecordTypeLoc (nestedEnv 1 false) nestedSelected referenceToB =
      Except.ok nestedSelected ∧
    referenceToA.getDecl.map (fun rd => rd.canonicalDecl) = some classA.canonicalDecl ∧
    classA.canonicalDecl ≠ (nestedClassMember 1).canonicalDecl ∧
    VisitRecordTypeLoc (nestedEnv 1 false) nestedSelected referenceToA =
      Except.ok { nestedSelected with
        TheRewriter := [Edit.RemoveText ⟨some 25, some 27⟩] } := by
  decide

/-- C5 (amended): once a wrapper is selected, `VisitRecordTypeLoc` returns, and it
issues an edit (exactly one, appended to the rewriter) if and only if the reference
resolves to a `CXXRecordDecl` canonically identical to the selected wrapper
`TheBaseCXXRD` itself; on every other reference, the wrapper's inner class included,
the instance is returned unchanged. -/
theorem visitRecordTypeLoc_edits_iff (env : Env) (s : State) (TLoc : RecordTypeLoc)
    (base : CXXRecordDecl) (hb : s.TheBaseCXXRD = some base) :
    ∃ r, VisitRecordTypeLoc env s TLoc = Except.ok r ∧
      ((∃ e, r.TheRewriter = s.TheRewriter ++ [e]) ↔
        ∃ RD, TLoc.getDecl = some RD ∧ RD.canonicalDecl = base.canonicalDecl) ∧
      ((¬ ∃ RD, TLoc.getDecl = some RD ∧ RD.canonicalDecl = base.canonicalDecl) → r = s) := by
  unfold VisitRecordTypeLoc
  cases hd : TLoc.getDecl with
  | none =>
    refine ⟨s, by simp [hd], ?_, fun _ => rfl⟩
    constructor
    · rintro ⟨e, he⟩
      have := congrArg List.length he
      simp at this
    · rintro ⟨RD, h, _⟩; exact absurd h (by simp)
  | some RD =>
    simp only [hb]
    by_cases hc : RD.canonicalDecl = base.canonicalDecl
    · simp only [hc, ne_eq, not_true_eq_false, if_false]
      by_cases hq : TLoc.isBeforeColonColon = true
      · simp only [hq, if_true]
        refine ⟨_, rfl, ?_, ?_⟩
        · constructor
          · intro _; exact ⟨RD, rfl, hc⟩
          · intro _; exact ⟨_, rfl⟩
        · intro h; exact absurd ⟨RD, rfl, hc⟩ h
      · simp only [hq, if_false]
        refine ⟨_, rfl, ?_, ?_⟩
        · constructor
          · intro _; exact ⟨RD, rfl, hc⟩
          · intro _; exact ⟨_, rfl⟩
        · intro h; exact absurd ⟨RD, rfl, hc⟩ h
    · simp only [ne_eq, hc, not_false_eq_true, if_true]
      refine ⟨s, rfl, ?_, fun _ => rfl⟩
      constructor
      · rintro ⟨e, he⟩
        have := congrArg List.length he
        simp at this
      · rintro ⟨RD2, h, h2⟩
        simp only [Option.some.injEq] at h
        subst h
        exact absurd h2 hc

/-- Witness of the amended C5 on the reference to the wrapper `A` in `A::B v;`. -/
theorem visitRecordTypeLoc_edits_iff_witness :
    ∃ r, VisitRecordTypeLoc (nestedEnv 1 false) nestedSelected referenceToA = Except.ok r ∧
      ((∃ e, r.TheRewriter = nestedSelected.TheRewriter ++ [e]) ↔
        ∃ RD, referenceToA.getDecl = some RD ∧ RD.canonicalDecl = classA.canonicalDecl) ∧
      ((¬ ∃ RD, referenceToA.getDecl = some RD ∧ RD.canonicalDecl = classA.canonicalDecl) →
        r = nestedSelected) :=
  visitRecordTypeLoc_edits_iff (nestedEnv 1 false) nestedSelected referenceToA classA rfl

theorem wrappersOf_length (env : Env) (nodes : List RecordDeclNode) :
    (wrappersOf env nodes).length = (nodes.filter (countsAsInstance env)).length := by
  induction nodes with
  | nil => rfl
  | cons n rest ih =>
    have ih2 : (List.filter accepts (List.filterMap (visitedDefinition env) rest)).length =
        (List.filter (countsAsInstance env) rest).length := ih
    cases hv : visitedDefinition env n with
    | none =>
      simp [wrappersOf, handledDefinitions, List.filterMap_cons, hv, List.filter_cons,
        countsAsInstance, ih2]
    | some d =>
      cases hacc : accepts d <;>
        simp [wrappersOf, handledDefinitions, List.filterMap_cons, hv, List.filter_cons,
          countsAsInstance, hacc, ih2]

/-- C6 (counterexample): in the run on `class A; class A \x7b class B \x7b\x7d; \x7d;` the
only accepted entity is `A` (canonical declaration 0), declared twice; the collection
pass counts it twice, `ValidInstanceNum` ends at 2, and with target ordinal 2 the
selection is made at the second visit of `A`. -/
theorem collection_redeclaration_counterexample :
    (redeclaredEnv 2).recordDecls.map (fun n => n.decl.canonicalDecl) = [0, 0, 1] ∧
    (wrappers (redeclaredEnv 2)).map (fun d => d.canonicalDecl) = [0, 0] ∧
    collectionTraverse (redeclaredEnv 2) initialState (redeclaredEnv 2).recordDecls =
      Except.ok { initialState with ValidInstanceNum := 2,
                                    TheBaseCXXRD := some redeclaredA } := by
  decide

/-- C6 (amended): the collection pass counts a qualifying wrapper once per visited
declaration of it. The visit of any non-special declaration node whose definition the
matcher accepts raises `ValidInstanceNum` by exactly 1, and the whole traversal raises
it by the number of such nodes, redeclarations of one entity included. -/
theorem collection_counts_each_declaration (env : Env) (s : State)
    (hwf : definitionsAreDefinitions env.recordDecls = true) :
    (∃ r, collectionTraverse env s env.recordDecls = Except.ok r ∧
      r.ValidInstanceNum =
        s.ValidInstanceNum + ((env.recordDecls.filter (countsAsInstance env)).length : Int)) ∧
    (∀ n ∈ env.recordDecls, countsAsInstance env n = true →
      ∀ s1 : State, ∃ r, VisitCXXRecordDecl env s1 n = Except.ok r ∧
        r.ValidInstanceNum = s1.ValidInstanceNum + 1) := by
  constructor
  · obtain ⟨r, hr, hV, _⟩ := collectionTraverse_spec env env.recordDecls s hwf
    exact ⟨r, hr, by rw [hV, wrappersOf_length]⟩
  · intro n hn hc s1
    unfold countsAsInstance at hc
    cases hv : visitedDefinition env n with
    | none => simp [hv] at hc
    | some d =>
      simp only [hv] at hc
      have hdef : d.isThisDeclarationADefinition = true := by
        have hall := hwf
        simp only [definitionsAreDefinitions, List.all_eq_true] at hall
        have h1 := hall n hn
        unfold visitedDefinition at hv
        by_cases hs : env.isSpecialRecordDecl n.decl = true
        · simp [hs] at hv
        · simp only [Bool.not_eq_true] at hs
          simp only [hs, Bool.false_eq_true, if_false] at hv
          rw [hv] at h1
          exact h1
      rw [visit_of_some env s1 n d hv, handle_accepted _ s1 d hdef hc]
      by_cases hk : s1.ValidInstanceNum + 1 = env.TransformationCounter
      · exact ⟨_, by rw [if_pos hk], rfl⟩
      · exact ⟨_, by rw [if_neg hk], rfl⟩

/-- Witness of the amended C6 on `class A; class A \x7b class B \x7b\x7d; \x7d;`. -/
theorem collection_counts_each_declaration_witness :
    (∃ r, collectionTraverse (redeclaredEnv 2) initialState (redeclaredEnv 2).recordDecls =
        Except.ok r ∧
      r.ValidInstanceNum = initialState.ValidInstanceNum +
        (((redeclaredEnv 2).recordDecls.filter (countsAsInstance (redeclaredEnv 2))).length :
          Int)) ∧
    (∀ n ∈ (redeclaredEnv 2).recordDecls, countsAsInstance (redeclaredEnv 2) n = true →
      ∀ s1 : State, ∃ r, VisitCXXRecordDecl (redeclaredEnv 2) s1 n = Except.ok r ∧
        r.ValidInstanceNum = s1.ValidInstanceNum + 1) :=
  collection_counts_each_declaration (redeclaredEnv 2) initialState (by decide)

theorem accepts_single_nested (rd : CXXRecordDecl) (m : Decl)
    (hbases : rd.numBases = 0) (htemplate : rd.describedClassTemplate = false)
    (hmembers : rd.explicitDecls = [m]) (hclass : m.isNestedClass = true) :
    accepts rd = true := by
  have hnested : rd.nestedClasses = rd.explicitDecls.filter (fun d => d.isNestedClass) := by
    simp only [CXXRecordDecl.nestedClasses, CXXRecordDecl.explicitDecls, List.filter_filter]
    congr 1
    funext d
    exact Bool.and_comm _ _
  rw [accepts_iff]
  refine ⟨htemplate, hbases, ?_⟩
  rw [hnested, hmembers]
  simp [hclass]

theorem handle_counts_accepted (k : Int) (s : State) (rd : CXXRecordDecl)
    (hdef : rd.isThisDeclarationADefinition = true) (hacc : accepts rd = true) :
    ∃ r, handleOneCXXRecordDecl k s (some rd) = Except.ok r ∧
      r.ValidInstanceNum = s.ValidInstanceNum + 1 ∧
      r.TheBaseCXXRD = (if s.ValidInstanceNum + 1 = k then some rd else s.TheBaseCXXRD) := by
  rw [handle_accepted k s rd hdef hacc]
  by_cases hk : s.ValidInstanceNum + 1 = k
  · exact ⟨_, by rw [if_pos hk], rfl, by simp [hk]⟩
  · exact ⟨_, by rw [if_neg hk], rfl, by simp [hk]⟩

/-- C7: a class definition with no base class and no described template whose
non-implicit members are exactly one nested class (or class-template) declaration is
accepted: `handleOneCXXRecordDecl` returns with `ValidInstanceNum` raised by exactly 1
(and selects the class exactly when the new value is the target ordinal). Implicit
members play no part: the same holds for every member list with the same non-implicit
members, however many implicit members it has and wherever they sit. -/
theorem handle_accepts_single_nested (k : Int) (s : State) (rd : CXXRecordDecl) (m : Decl)
    (hdef : rd.isThisDeclarationADefinition = true)
    (hbases : rd.numBases = 0) (htemplate : rd.describedClassTemplate = false)
    (hmembers : rd.explicitDecls = [m]) (hclass : m.isNestedClass = true) :
    (∃ r, handleOneCXXRecordDecl k s (some rd) = Except.ok r ∧
      r.ValidInstanceNum = s.ValidInstanceNum + 1 ∧
      r.TheBaseCXXRD = (if s.ValidInstanceNum + 1 = k then some rd else s.TheBaseCXXRD)) ∧
    (∀ members : List Decl, members.filter (fun d => !d.isImplicit) = rd.explicitDecls →
      ∃ r, handleOneCXXRecordDecl k s (some { rd with decls := members }) = Except.ok r ∧
        r.ValidInstanceNum = s.ValidInstanceNum + 1) := by
  constructor
  · exact handle_counts_accepted k s rd hdef
      (accepts_single_nested rd m hbases htemplate hmembers hclass)
  · intro members hsame
    have hacc : accepts { rd with decls := members } = true :=
      accepts_single_nested { rd with decls := members } m hbases htemplate
        (by rw [← hmembers, ← hsame]; rfl) hclass
    obtain ⟨r, hr, hV, _⟩ := handle_counts_accepted k s { rd with decls := members } hdef hacc
    exact ⟨r, hr, hV⟩

/-- Witness of C7 on the wrapper `A` of `class A \x7b class B \x7b\x7d; \x7d;`, whose
member list also holds the implicit injected class name. -/
theorem handle_accepts_single_nested_witness :
    (∃ r, handleOneCXXRecordDecl 1 initialState (some classA) = Except.ok r ∧
      r.ValidInstanceNum = initialState.ValidInstanceNum + 1 ∧
      r.TheBaseCXXRD =
        (if initialState.ValidInstanceNum + 1 = 1 then some classA
         else initialState.TheBaseCXXRD)) ∧
    (∀ members : List Decl, members.filter (fun d => !d.isImplicit) = classA.explicitDecls →
      ∃ r, handleOneCXXRecordDecl 1 initialState (some { classA with decls := members }) =
          Except.ok r ∧
        r.ValidInstanceNum = initialState.ValidInstanceNum + 1) :=
  handle_accepts_single_nested 1 initialState classA (nestedClassMember 1) (by decide)
    (by decide) (by decide) (by decide) (by decide)

/-- C9: in query-count-only mode `HandleTranslationUnit` returns right after the
collection step, for every program and every target ordinal: the rewriter holds the same
edit requests as before, the outcome `TransError` is untouched, and `ValidInstanceNum`
is the counter's old value plus the number of all visited class definitions that the
matcher accepts (so, in a fresh run, that number itself); in C mode, where no class
definition is visited, it is zero. -/
theorem handleTranslationUnit_query_only (env : Env) (s : State)
    (hwf : definitionsAreDefinitions env.recordDecls = true)
    (hq : env.QueryInstanceOnly = true) :
    ∃ r, HandleTranslationUnit env s = Except.ok r ∧
      r.TheRewriter = s.TheRewriter ∧
      r.TransError = s.TransError ∧
      r.ValidInstanceNum =
        (if env.isCLangOpt then 0
         else s.ValidInstanceNum +
          (((handledDefinitions env env.recordDecls).filter accepts).length : Int)) ∧
      (env.isCLangOpt = false → s.ValidInstanceNum = 0 →
        r.ValidInstanceNum = ((wrappers env).length : Int)) := by
  unfold HandleTranslationUnit
  by_cases hc : env.isCLangOpt = true
  · simp only [hc, if_true, hq]
    exact ⟨_, rfl, rfl, rfl, rfl, fun h => absurd h (by simp)⟩
  · obtain ⟨r, hr, hV, hE, hR, _⟩ := collectionTraverse_spec env env.recordDecls s hwf
    simp only [hc, if_false, hr, hq, if_true]
    refine ⟨r, rfl, hR, hE, ?_, ?_⟩
    · simpa [Bool.false_eq_true] using hV
    · intro _ h0
      rw [hV, h0, zero_add]
      rfl

/-- Witness of C9 on `class A \x7b class B \x7b\x7d; \x7d; A::B v;` with target ordinal 5,
which exceeds the number of wrappers. -/
theorem handleTranslationUnit_query_only_witness :
    ∃ r, HandleTranslationUnit (nestedEnv 5 true) initialState = Except.ok r ∧
      r.TheRewriter = initialState.TheRewriter ∧
      r.TransError = initialState.TransError ∧
      r.ValidInstanceNum =
        (if (nestedEnv 5 true).isCLangOpt then 0
         else initialState.ValidInstanceNum +
          (((handledDefinitions (nestedEnv 5 true) (nestedEnv 5 true).recordDecls).filter
            accepts).length : Int)) ∧
      ((nestedEnv 5 true).isCLangOpt = false → initialState.ValidInstanceNum = 0 →
        r.ValidInstanceNum = ((wrappers (nestedEnv 5 true)).length : Int)) :=
  handleTranslationUnit_query_only (nestedEnv 5 true) initialState (by decide) (by decide)

/-! ## The rewrite visitor -/

theorem getLocationAfter_spec (buf : List Char) (c : Char) (o p : Nat)
    (h : getLocationAfter buf (some o) c = some p) :
    o < p ∧ buf[p - 1]? = some c ∧ ∀ j, o ≤ j → j < p - 1 → buf[j]? ≠ some c := by
  unfold getLocationAfter at h
  simp only at h
  cases hf : (buf.drop o).findIdx? (fun x => x == c) with
  | none => simp [hf] at h
  | some i =>
    simp only [hf, Option.some.injEq] at h
    subst h
    obtain ⟨hi, hpi, hbefore⟩ := List.findIdx?_eq_some_iff_getElem.mp hf
    refine ⟨by omega, ?_, ?_⟩
    · have h1 : (buf.drop o)[i]? = some c := by
        rw [List.getElem?_eq_getElem hi]
        simp only [beq_iff_eq] at hpi
        rw [hpi]
      rw [List.getElem?_drop] at h1
      simpa using h1
    · intro j hj1 hj2 hc
      have hji : j - o < i := by omega
      have h2 := hbefore (j - o) hji
      have h3 : (buf.drop o)[j - o]? = some c := by
        rw [List.getElem?_drop]
        have : o + (j - o) = j := by omega
        rw [this]; exact hc
      rw [List.getElem?_eq_getElem (Nat.lt_trans hji hi)] at h3
      simp only [Option.some.injEq] at h3
      simp [h3] at h2

/-- C10: with a wrapper selected, `VisitRecordTypeLoc` issues exactly one edit on a
matched reference (one that resolves to a class canonically identical to
`TheBaseCXXRD`). If the reference stands before `::`, the edit removes the range from
the reference's start to the location just after the first `:` found from the
reference's end, which drops the qualifier: in the example text `A::B v;` becomes
`B v;`. Otherwise the edit replaces the reference's span with the outer class's name
followed by one space. An unmatched reference leaves the instance unchanged. -/
theorem visitRecordTypeLoc_edit (env : Env) (s : State) (TLoc : RecordTypeLoc)
    (base : CXXRecordDecl) (hb : s.TheBaseCXXRD = some base) :
    (∀ RD, TLoc.getDecl = some RD → RD.canonicalDecl = base.canonicalDecl →
      TLoc.isBeforeColonColon = true →
        VisitRecordTypeLoc env s TLoc =
          Except.ok { s with TheRewriter := s.TheRewriter ++
            [Edit.RemoveText
              ⟨TLoc.beginLoc, getLocationAfter env.buffer TLoc.endLoc ':'⟩] }) ∧
    (∀ RD, TLoc.getDecl = some RD → RD.canonicalDecl = base.canonicalDecl →
      TLoc.isBeforeColonColon = false →
        VisitRecordTypeLoc env s TLoc =
          Except.ok { s with TheRewriter := s.TheRewriter ++
            [Edit.ReplaceText ⟨TLoc.beginLoc, TLoc.endLoc⟩ (base.name ++ " ")] }) ∧
    ((∀ RD, TLoc.getDecl = some RD → RD.canonicalDecl ≠ base.canonicalDecl) →
      VisitRecordTypeLoc env s TLoc = Except.ok s) ∧
    (∀ o p, TLoc.endLoc = some o → getLocationAfter env.buffer TLoc.endLoc ':' = some p →
      o < p ∧ env.buffer[p - 1]? = some ':' ∧
        ∀ j, o ≤ j → j < p - 1 → env.buffer[j]? ≠ some ':') ∧
    (∃ r, VisitRecordTypeLoc (nestedEnv 1 false) nestedSelected referenceToA = Except.ok r ∧
      rewrittenText nestedText r.TheRewriter =
        "class A \x7b class B \x7b\x7d; \x7d; B v;".toList) := by
  refine ⟨?_, ?_, ?_, ?_, ?_⟩
  · intro RD hd hc hq
    simp only [VisitRecordTypeLoc, hd, hb, hc, ne_eq, not_true_eq_false, if_false, hq,
      if_true, State.RemoveText]
  · intro RD hd hc hq
    simp only [VisitRecordTypeLoc, hd, hb, hc, ne_eq, not_true_eq_false, if_false, hq,
      Bool.false_eq_true, State.replaceRecordType]
  · intro hne
    unfold VisitRecordTypeLoc
    cases hd : TLoc.getDecl with
    | none => rfl
    | some RD => simp only [hb, ne_eq, hne RD hd, not_false_eq_true, if_true]
  · intro o p ho hp
    rw [ho] at hp
    exact getLocationAfter_spec env.buffer ':' o p hp
  · exact ⟨_, rfl, by decide⟩

/-- Witness of C10 on the reference to `A` in `A::B v;`, which stands before `::`. -/
theorem visitRecordTypeLoc_edit_witness :
    VisitRecordTypeLoc (nestedEnv 1 false) nestedSelected referenceToA =
      Except.ok { nestedSelected with TheRewriter := nestedSelected.TheRewriter ++
        [Edit.RemoveText ⟨referenceToA.beginLoc,
          getLocationAfter (nestedEnv 1 false).buffer referenceToA.endLoc ':'⟩] } :=
  (visitRecordTypeLoc_edit (nestedEnv 1 false) nestedSelected referenceToA classA rfl).1
    classA rfl rfl rfl

/-! ## The excision -/

theorem getLocationUntil_spec (buf : List Char) (c : Char) (o p : Nat)
    (h : getLocationUntil buf (some o) c = some p) :
    o ≤ p ∧ buf[p]? = some c ∧ ∀ j, o ≤ j → j < p → buf[j]? ≠ some c := by
  unfold getLocationUntil at h
  simp only at h
  cases hf : (buf.drop o).findIdx? (fun x => x == c) with
  | none => simp [hf] at h
  | some i =>
    simp only [hf, Option.some.injEq] at h
    subst h
    obtain ⟨hi, hpi, hbefore⟩ := List.findIdx?_eq_some_iff_getElem.mp hf
    refine ⟨by omega, ?_, ?_⟩
    · have h1 : (buf.drop o)[i]? = some c := by
        rw [List.getElem?_eq_getElem hi]
        simp only [beq_iff_eq] at hpi
        rw [hpi]
      rw [List.getElem?_drop] at h1
      exact h1
    · intro j hj1 hj2 hc
      have hji : j - o < i := by omega
      have h2 := hbefore (j - o) hji
      have h3 : (buf.drop o)[j - o]? = some c := by
        rw [List.getElem?_drop]
        have : o + (j - o) = j := by omega
        rw [this]; exact hc
      rw [List.getElem?_eq_getElem (Nat.lt_trans hji hi)] at h3
      simp only [Option.some.injEq] at h3
      simp [h3] at h2

theorem tokenLength_single (buf : List Char) (p : Nat) (c : Char)
    (hp : buf[p]? = some c) (hc : isIdentifierChar c = false) : tokenLength buf p = 1 := by
  obtain ⟨hlt, hget⟩ := List.getElem?_eq_some_iff.mp hp
  unfold tokenLength
  rw [List.drop_eq_getElem_cons hlt, hget]
  simp [hc]

theorem covers_removeText (buf : List Char) (a b i : Nat) (c : Char)
    (hab : a ≤ b) (hb : buf[b]? = some c) (hc : isIdentifierChar c = false) :
    (Edit.RemoveText ⟨some a, some b⟩).covers buf i = true ↔ a ≤ i ∧ i ≤ b := by
  simp only [Edit.covers, Edit.range, rangeSpan, hab, if_true, tokenLength_single buf b c hb hc,
    decide_eq_true_eq]
  omega

/-- C11: with a wrapper selected whose opening brace can be located (the assertion of
line 138), `removeOuterClass` first issues the removal of the range from the class's
declaration start to the first opening brace after it, a range that covers every offset
from the start up to and including that brace. It then issues the removal from the
closing brace to the first `;` after it exactly when both locations are valid; when one
of them is invalid only the first removal is issued. In both cases it returns, and the
outcome `TransError` and every other member are as before. -/
theorem removeOuterClass_edits (env : Env) (s : State) (base : CXXRecordDecl)
    (start brace : Nat) (hb : s.TheBaseCXXRD = some base)
    (hstart : base.locStart = some start)
    (hbrace : getLocationUntil env.buffer base.locStart '{' = some brace) :
    (start ≤ brace ∧ env.buffer[brace]? = some '{' ∧
      (∀ j, start ≤ j → j < brace → env.buffer[j]? ≠ some '{') ∧
      ∀ i, (Edit.RemoveText ⟨base.locStart, some brace⟩).covers env.buffer i = true ↔
        start ≤ i ∧ i ≤ brace) ∧
    (∀ rb semi, base.rBraceLoc = some rb →
      getLocationUntil env.buffer base.rBraceLoc ';' = some semi →
        removeOuterClass env s =
          Except.ok { s with TheRewriter := s.TheRewriter ++
            [Edit.RemoveText ⟨base.locStart, some brace⟩,
             Edit.RemoveText ⟨some rb, some semi⟩] } ∧
        rb ≤ semi ∧ env.buffer[semi]? = some ';' ∧
        ∀ i, (Edit.RemoveText ⟨some rb, some semi⟩).covers env.buffer i = true ↔
          rb ≤ i ∧ i ≤ semi) ∧
    (base.rBraceLoc = none ∨ getLocationUntil env.buffer base.rBraceLoc ';' = none →
      removeOuterClass env s =
        Except.ok { s with TheRewriter := s.TheRewriter ++
          [Edit.RemoveText ⟨base.locStart, some brace⟩] }) := by
  have hspec := hbrace
  rw [hstart] at hspec
  obtain ⟨h1, h2, h3⟩ := getLocationUntil_spec env.buffer '{' start brace hspec
  refine ⟨⟨h1, h2, h3, ?_⟩, ?_, ?_⟩
  · intro i
    rw [hstart]
    exact covers_removeText env.buffer start brace i '{' h1 h2 (by decide)
  · intro rb semi hrb hsemi
    have hspec2 := hsemi
    rw [hrb] at hspec2
    obtain ⟨g1, g2, _⟩ := getLocationUntil_spec env.buffer ';' rb semi hspec2
    refine ⟨?_, g1, g2, ?_⟩
    · simp [removeOuterClass, hb, hbrace, hrb, hspec2, State.RemoveText]
    · intro i
      exact covers_removeText env.buffer rb semi i ';' g1 g2 (by decide)
  · intro h
    rcases h with h | h
    · simp [removeOuterClass, hb, hbrace, h, State.RemoveText]
    · simp [removeOuterClass, hb, hbrace, h, State.RemoveText]

/-- Witness of C11 on the wrapper `A` of `class A \x7b class B \x7b\x7d; \x7d; A::B v;`:
both removals are issued. -/
theorem removeOuterClass_edits_witness :
    removeOuterClass (nestedEnv 1 false) nestedSelected =
      Except.ok { nestedSelected with TheRewriter := nestedSelected.TheRewriter ++
        [Edit.RemoveText ⟨classA.locStart, some 8⟩,
         Edit.RemoveText ⟨some 22, some 23⟩] } ∧
    22 ≤ 23 ∧ (nestedEnv 1 false).buffer[23]? = some ';' ∧
    ∀ i, (Edit.RemoveText ⟨some 22, some 23⟩).covers (nestedEnv 1 false).buffer i = true ↔
      22 ≤ i ∧ i ≤ 23 :=
  (removeOuterClass_edits (nestedEnv 1 false) nestedSelected classA 0 8 rfl rfl
    (by decide)).2.1 22 23 rfl (by decide)

/-! ## The rewrite traversal and the driver -/

theorem visitRecordTypeLoc_keeps (env : Env) (s : State) (t : RecordTypeLoc)
    (base : CXXRecordDecl) (hb : s.TheBaseCXXRD = some base) :
    ∃ r, VisitRecordTypeLoc env s t = Except.ok r ∧ r.TheBaseCXXRD = some base ∧
      r.ValidInstanceNum = s.ValidInstanceNum ∧ r.TransError = s.TransError ∧
      ((match t.getDecl with
        | none => true
        | some RD => decide (RD.canonicalDecl ≠ base.canonicalDecl)) = true → r = s) := by
  unfold VisitRecordTypeLoc
  cases hd : t.getDecl with
  | none => exact ⟨s, rfl, hb, rfl, rfl, fun _ => rfl⟩
  | some RD =>
    simp only [hb]
    by_cases hc : RD.canonicalDecl = base.canonicalDecl
    · simp only [hc, ne_eq, not_true_eq_false, if_false, decide_False, Bool.false_eq_true,
        false_implies, and_true]
      by_cases hq : t.isBeforeColonColon = true
      · simp only [hq, if_true]
        exact ⟨_, rfl, hb, rfl, rfl⟩
      · simp only [hq, if_false]
        exact ⟨_, rfl, hb, rfl, rfl⟩
    · simp only [ne_eq, hc, not_false_eq_true, if_true]
      exact ⟨s, rfl, hb, rfl, rfl, fun _ => rfl⟩

/-- The invariant of the rewrite traversal: with a wrapper selected it returns, and the
selection, the counter and the outcome are as before; when no visited reference
resolves to the wrapper, nothing at all has changed. -/
theorem rewriteTraverse_spec (env : Env) (base : CXXRecordDecl) (locs : List RecordTypeLoc) :
    ∀ s : State, s.TheBaseCXXRD = some base →
      ∃ r, rewriteTraverse env s locs = Except.ok r ∧ r.TheBaseCXXRD = some base ∧
        r.ValidInstanceNum = s.ValidInstanceNum ∧ r.TransError = s.TransError ∧
        ((locs.all fun t =>
            match t.getDecl with
            | none => true
            | some RD => decide (RD.canonicalDecl ≠ base.canonicalDecl)) = true → r = s) := by
  induction locs with
  | nil => intro s hb; exact ⟨s, rfl, hb, rfl, rfl, fun _ => rfl⟩
  | cons t rest ih =>
    intro s hb
    obtain ⟨s1, h1, hb1, hV1, hE1, hsame1⟩ := visitRecordTypeLoc_keeps env s t base hb
    obtain ⟨r, hr, hbr, hVr, hEr, hsame⟩ := ih s1 hb1
    refine ⟨r, ?_, hbr, by rw [hVr, hV1], by rw [hEr, hE1], ?_⟩
    · simp only [rewriteTraverse, h1]
      exact hr
    · intro hall
      simp only [List.all_cons, Bool.and_eq_true] at hall
      rw [hsame hall.2, hsame1 hall.1]

theorem removeOuterClass_ok (env : Env) (s : State) (base : CXXRecordDecl)
    (hb : s.TheBaseCXXRD = some base)
    (hloc : (getLocationUntil env.buffer base.locStart '{').isSome = true) :
    removeOuterClass env s =
      Except.ok { s with TheRewriter := s.TheRewriter ++ excisedSpans env base } := by
  unfold removeOuterClass excisedSpans
  simp only [hb, hloc, Bool.not_true, Bool.false_eq_true, if_false, State.RemoveText]
  split <;> simp

theorem removeOuterClass_fault (env : Env) (s : State) (base : CXXRecordDecl)
    (hb : s.TheBaseCXXRD = some base) (e : Fault) (he : removeOuterClass env s = Except.error e) :
    e = Fault.assertFailed ∧ getLocationUntil env.buffer base.locStart '{' = none := by
  cases hloc : getLocationUntil env.buffer base.locStart '{' with
  | some p =>
    rw [removeOuterClass_ok env s base hb (by rw [hloc]; rfl)] at he
    exact absurd he (by simp)
  | none =>
    simp only [removeOuterClass, hb, hloc, Option.isSome_none, Bool.not_false, if_true,
      Except.error.injEq] at he
    exact ⟨he.symm, rfl⟩

/-- What `HandleTranslationUnit` does when the rewrite phase is reached in a run whose
counter started at zero, with a positive target ordinal: the C++ collection ran and
selected the wrapper that the ordinal designates, the rewrite traversal returned with
that selection, and the run ends with `removeOuterClass` and the diagnostic check. -/
theorem handleTranslationUnit_rewrite_phase (env : Env) (s : State)
    (hwf : definitionsAreDefinitions env.recordDecls = true)
    (hq : env.QueryInstanceOnly = false) (h0 : s.ValidInstanceNum = 0)
    (hk1 : 1 ≤ env.TransformationCounter)
    (hreach : env.TransformationCounter ≤
      (if env.isCLangOpt then 0 else ((wrappers env).length : Int))) :
    ∃ s1 w s2, env.isCLangOpt = false ∧
      collectionTraverse env s env.recordDecls = Except.ok s1 ∧
      env.TransformationCounter ≤ s1.ValidInstanceNum ∧
      s1.TransError = s.TransError ∧ s1.TheRewriter = s.TheRewriter ∧
      selectedWrapper env = some w ∧ w ∈ wrappers env ∧ s1.TheBaseCXXRD = some w ∧
      rewriteTraverse env s1 env.recordTypeLocs = Except.ok s2 ∧
      s2.TheBaseCXXRD = some w ∧ s2.TransError = s.TransError ∧
      (unreferenced env w = true → s2 = s1) ∧
      HandleTranslationUnit env s =
        (match removeOuterClass env s2 with
         | Except.error e => Except.error e
         | Except.ok s3 =>
           if env.hasErrorOccurred || env.hasFatalErrorOccurred then
             Except.ok { s3 with TransError := TransformationError.TransInternalError }
           else Except.ok s3) := by
  have hc : env.isCLangOpt = false := by
    cases h : env.isCLangOpt with
    | false => rfl
    | true => rw [h] at hreach; simp only [if_true] at hreach; omega
  rw [hc] at hreach
  simp only [Bool.false_eq_true, if_false] at hreach
  obtain ⟨s1, hs1, hV, hE, hR, hB⟩ := collectionTraverse_spec env env.recordDecls s hwf
  have hV1 : s1.ValidInstanceNum = ((wrappers env).length : Int) := by
    rw [hV, h0, zero_add]; rfl
  have hidx : (env.TransformationCounter - 1).toNat < (wrappers env).length := by omega
  have hsel : selectedWrapper env = some ((wrappers env)[(env.TransformationCounter - 1).toNat]) :=
    List.getElem?_eq_getElem hidx
  have hbase : s1.TheBaseCXXRD = some ((wrappers env)[(env.TransformationCounter - 1).toNat]) := by
    rw [hB, h0, if_pos ⟨by omega, by simpa using hreach⟩]
    simp only [sub_zero]
    exact List.getElem?_eq_getElem hidx
  obtain ⟨s2, hs2, hB2, _, hE2, hsame⟩ :=
    rewriteTraverse_spec env _ env.recordTypeLocs s1 hbase
  refine ⟨s1, _, s2, hc, hs1, by rw [hV1]; exact hreach, hE, hR, hsel,
    List.getElem_mem _, hbase, hs2, hB2, by rw [hE2, hE], hsame, ?_⟩
  have hnot : ¬ env.TransformationCounter > s1.ValidInstanceNum := by rw [hV1]; omega
  simp only [HandleTranslationUnit, hc, Bool.false_eq_true, if_false, hs1, hq, hnot, hs2]

/-- C12: in a fresh run (counter zero, no error set) outside query-only mode with a
positive target ordinal. If the ordinal is within the number of wrappers found and the
selected wrapper's opening brace can be located, the run returns after the reference
rewrite and the excision have both been performed, and its outcome is the internal
error if and only if the host's diagnostics report an error or a fatal error; otherwise
the outcome is as before, and it is never the max-instance error. If the ordinal is out
of range the outcome is the max-instance error, never the internal error. -/
theorem handleTranslationUnit_outcome (env : Env) (s : State)
    (hwf : definitionsAreDefinitions env.recordDecls = true)
    (hq : env.QueryInstanceOnly = false) (h0 : s.ValidInstanceNum = 0)
    (hs : s.TransError = TransformationError.TransSuccess)
    (hk1 : 1 ≤ env.TransformationCounter) :
    (env.TransformationCounter ≤
        (if env.isCLangOpt then 0 else ((wrappers env).length : Int)) →
      headerLocatable env = true →
      ∃ s1 s2 s3 r, collectionTraverse env s env.recordDecls = Except.ok s1 ∧
        rewriteTraverse env s1 env.recordTypeLocs = Except.ok s2 ∧
        removeOuterClass env s2 = Except.ok s3 ∧
        HandleTranslationUnit env s = Except.ok r ∧
        r = (if env.hasErrorOccurred || env.hasFatalErrorOccurred then
              { s3 with TransError := TransformationError.TransInternalError }
             else s3) ∧
        (r.TransError = TransformationError.TransInternalError ↔
          (env.hasErrorOccurred = true ∨ env.hasFatalErrorOccurred = true)) ∧
        (env.hasErrorOccurred = false → env.hasFatalErrorOccurred = false →
          r.TransError = s.TransError) ∧
        r.TransError ≠ TransformationError.TransMaxInstanceError) ∧
    (env.TransformationCounter >
        (if env.isCLangOpt then 0 else ((wrappers env).length : Int)) →
      ∃ r, HandleTranslationUnit env s = Except.ok r ∧
        r.TransError = TransformationError.TransMaxInstanceError ∧
        r.TransError ≠ TransformationError.TransInternalError) := by
  constructor
  · intro hreach hloc
    obtain ⟨s1, w, s2, _, hs1, _, _, _, hsel, _, _, hs2, hB2, hE2, _, hrun⟩ :=
      handleTranslationUnit_rewrite_phase env s hwf hq h0 hk1 hreach
    have hloc2 : (getLocationUntil env.buffer w.locStart '{').isSome = true := by
      simpa [headerLocatable, hsel] using hloc
    have hrm := removeOuterClass_ok env s2 w hB2 hloc2
    rw [hrm] at hrun
    simp only at hrun
    have hE3 : ({ s2 with TheRewriter := s2.TheRewriter ++ excisedSpans env w } : State).TransError =
        TransformationError.TransSuccess := by
      show s2.TransError = _
      rw [hE2, hs]
    by_cases hd : (env.hasErrorOccurred || env.hasFatalErrorOccurred) = true
    · rw [if_pos hd] at hrun
      refine ⟨s1, s2, _, _, hs1, hs2, hrm, hrun, by rw [if_pos hd], ?_, ?_, ?_⟩
      · simp only [true_iff]
        simpa [Bool.or_eq_true] using hd
      · intro h1 h2
        rw [h1, h2] at hd
        exact absurd hd (by decide)
      · simp
    · rw [if_neg hd] at hrun
      refine ⟨s1, s2, _, _, hs1, hs2, hrm, hrun, by rw [if_neg hd], ?_, ?_, ?_⟩
      · rw [hE3]
        constructor
        · intro h; exact absurd h (by decide)
        · intro h; exact absurd (by simpa [Bool.or_eq_true] using h) hd
      · intro _ _
        rw [hE3, hs]
      · rw [hE3]; decide
  · intro hk
    unfold HandleTranslationUnit
    by_cases hc : env.isCLangOpt = true
    · simp only [hc, if_true] at hk
      simp only [hc, if_true, hq, Bool.false_eq_true, if_false, if_pos hk]
      exact ⟨_, rfl, rfl, by simp⟩
    · simp only [hc, if_false] at hk
      obtain ⟨r, hr, hV, _, _, _⟩ := collectionTraverse_spec env env.recordDecls s hwf
      have hk2 : env.TransformationCounter > r.ValidInstanceNum := by
        rw [hV, h0, zero_add]; exact hk
      simp only [hc, if_false, hr, hq, Bool.false_eq_true, if_pos hk2]
      exact ⟨_, rfl, rfl, by simp⟩

/-- Witness of C12 on `class A \x7b class B \x7b int x; \x7d; \x7d;` with target ordinal 1:
the rewrite phase is reached and, the diagnostics being clean, no error is set. -/
theorem handleTranslationUnit_outcome_witness :
    ∃ s1 s2 s3 r, collectionTraverse simpleEnv initialState simpleEnv.recordDecls =
        Except.ok s1 ∧
      rewriteTraverse simpleEnv s1 simpleEnv.recordTypeLocs = Except.ok s2 ∧
      removeOuterClass simpleEnv s2 = Except.ok s3 ∧
      HandleTranslationUnit simpleEnv initialState = Except.ok r ∧
      r = (if simpleEnv.hasErrorOccurred || simpleEnv.hasFatalErrorOccurred then
            { s3 with TransError := TransformationError.TransInternalError }
           else s3) ∧
      (r.TransError = TransformationError.TransInternalError ↔
        (simpleEnv.hasErrorOccurred = true ∨ simpleEnv.hasFatalErrorOccurred = true)) ∧
      (simpleEnv.hasErrorOccurred = false → simpleEnv.hasFatalErrorOccurred = false →
        r.TransError = initialState.TransError) ∧
      r.TransError ≠ TransformationError.TransMaxInstanceError :=
  (handleTranslationUnit_outcome simpleEnv initialState (by decide) (by decide) (by decide)
    (by decide) (by decide)).1 (by decide) (by decide)

theorem flatMap_keep (l : List (Nat × Char)) (q : Nat → Bool) :
    (l.flatMap fun p => if q p.1 = true then [] else [p.2]) =
      (l.filter fun p => !q p.1).map Prod.snd := by
  induction l with
  | nil => rfl
  | cons a rest ih =>
    simp only [List.flatMap_cons, ih, List.filter_cons]
    cases q a.1 <;> simp

theorem excisedSpans_inserted (env : Env) (w : CXXRecordDecl) (i : Nat) :
    (excisedSpans env w).flatMap (fun e => e.inserted env.buffer i) = [] := by
  unfold excisedSpans
  split <;> simp [Edit.inserted]

/-- The text after the excision alone: the characters of the buffer whose offsets no
excised span covers, in their order. -/
theorem rewrittenText_excisedSpans (env : Env) (w : CXXRecordDecl) :
    rewrittenText env.buffer (excisedSpans env w) =
      (env.buffer.enum.filter fun p =>
        !(excisedSpans env w).any (fun e => e.covers env.buffer p.1)).map Prod.snd := by
  unfold rewrittenText
  simp only [excisedSpans_inserted, List.nil_append]
  exact flatMap_keep env.buffer.enum
    (fun i => (excisedSpans env w).any (fun e => e.covers env.buffer i))

/-- C13 (counterexample): the run on `class A \x7b class B \x7b int x; \x7d; \x7d;` with
target ordinal 1 selects `A` and issues the two removals and nothing else, but the text
it leaves keeps the blank after the removed header and the blank before the removed
tail: it is not exactly `class B \x7b int x; \x7d;`. -/
theorem handleTranslationUnit_simple_counterexample :
    HandleTranslationUnit simpleEnv initialState = Except.ok simpleResult ∧
    rewrittenText simpleText simpleResult.TheRewriter =
      " class B \x7b int x; \x7d; ".toList ∧
    rewrittenText simpleText simpleResult.TheRewriter ≠
      "class B \x7b int x; \x7d;".toList := by
  decide

/-- C13 (amended): end-to-end on `class A \x7b class B \x7b int x; \x7d; \x7d;` with
target ordinal 1, the run selects `A`, issues the header removal and the
closing-brace-to-semicolon removal and no other edit, and the resulting text is
` class B \x7b int x; \x7d; `, the inner class between the two blanks that stood inside
the outer braces. More generally, in every fresh run that reaches the excision and in
which no visited reference resolves to the selected class, the edits are exactly the
excised spans of that class, and the resulting text is the input with the characters
of those spans taken out: every other character is kept, in place and unchanged. -/
theorem handleTranslationUnit_excision (env : Env) (s : State)
    (hwf : definitionsAreDefinitions env.recordDecls = true)
    (hq : env.QueryInstanceOnly = false) (h0 : s.ValidInstanceNum = 0)
    (hfresh : s.TheRewriter = [])
    (hk1 : 1 ≤ env.TransformationCounter)
    (hreach : env.TransformationCounter ≤
      (if env.isCLangOpt then 0 else ((wrappers env).length : Int)))
    (hloc : headerLocatable env = true)
    (hunref : ∀ w, selectedWrapper env = some w → unreferenced env w = true) :
    (∃ r w, HandleTranslationUnit env s = Except.ok r ∧
      selectedWrapper env = some w ∧ r.TheBaseCXXRD = some w ∧
      r.TheRewriter = excisedSpans env w ∧
      rewrittenText env.buffer r.TheRewriter =
        (env.buffer.enum.filter fun p =>
          !(excisedSpans env w).any (fun e => e.covers env.buffer p.1)).map Prod.snd) ∧
    (HandleTranslationUnit simpleEnv initialState = Except.ok simpleResult ∧
      simpleResult.TheBaseCXXRD = some simpleA ∧
      simpleResult.TheRewriter = excisedSpans simpleEnv simpleA ∧
      rewrittenText simpleText simpleResult.TheRewriter =
        " class B \x7b int x; \x7d; ".toList) := by
  refine ⟨?_, by decide⟩
  obtain ⟨s1, w, s2, _, _, _, _, hR1, hsel, _, _, _, hB2, _, hsame, hrun⟩ :=
    handleTranslationUnit_rewrite_phase env s hwf hq h0 hk1 hreach
  have hloc2 : (getLocationUntil env.buffer w.locStart '{').isSome = true := by
    simpa [headerLocatable, hsel] using hloc
  have h21 : s2 = s1 := hsame (hunref w hsel)
  have hR2 : s2.TheRewriter = [] := by rw [h21, hR1, hfresh]
  rw [removeOuterClass_ok env s2 w hB2 hloc2] at hrun
  simp only at hrun
  by_cases hd : (env.hasErrorOccurred || env.hasFatalErrorOccurred) = true
  · rw [if_pos hd] at hrun
    refine ⟨_, w, hrun, hsel, hB2, ?_, ?_⟩
    · show s2.TheRewriter ++ excisedSpans env w = excisedSpans env w
      rw [hR2, List.nil_append]
    · show rewrittenText env.buffer (s2.TheRewriter ++ excisedSpans env w) = _
      rw [hR2, List.nil_append]
      exact rewrittenText_excisedSpans env w
  · rw [if_neg hd] at hrun
    refine ⟨_, w, hrun, hsel, hB2, ?_, ?_⟩
    · show s2.TheRewriter ++ excisedSpans env w = excisedSpans env w
      rw [hR2, List.nil_append]
    · show rewrittenText env.buffer (s2.TheRewriter ++ excisedSpans env w) = _
      rw [hR2, List.nil_append]
      exact rewrittenText_excisedSpans env w

/-- Witness of the amended C13 on `class A \x7b class B \x7b int x; \x7d; \x7d;`. -/
theorem handleTranslationUnit_excision_witness :
    ∃ r w, HandleTranslationUnit simpleEnv initialState = Except.ok r ∧
      selectedWrapper simpleEnv = some w ∧ r.TheBaseCXXRD = some w ∧
      r.TheRewriter = excisedSpans simpleEnv w ∧
      rewrittenText simpleEnv.buffer r.TheRewriter =
        (simpleEnv.buffer.enum.filter fun p =>
          !(excisedSpans simpleEnv w).any
            (fun e => e.covers simpleEnv.buffer p.1)).map Prod.snd :=
  (handleTranslationUnit_excision simpleEnv initialState (by decide) (by decide) (by decide)
    (by decide) (by decide) (by decide) (by decide)
    (by
      intro w hw
      have hsel : selectedWrapper simpleEnv = some simpleA := by decide
      rw [hsel] at hw
      cases hw
      decide)).1

/-- C14: in a run whose counter starts at zero, with a target ordinal `k ≥ 1`, outside
query-only mode: if the rewrite phase is reached (`k` is at most the value of
`ValidInstanceNum` after collection), then the collection has set `TheBaseCXXRD` to a
wrapper that the matcher accepted. Every `VisitRecordTypeLoc` made with that selection
returns, the rewrite traversal returns with the selection still in place, so that the
assertion on `TheBaseCXXRD` in `removeOuterClass` holds, and the run never stops on a
null pointer: the only fault left to `removeOuterClass` is the assertion on the
location of the opening brace. -/
theorem rewrite_phase_has_selection (env : Env) (s : State)
    (hwf : definitionsAreDefinitions env.recordDecls = true)
    (hq : env.QueryInstanceOnly = false) (h0 : s.ValidInstanceNum = 0)
    (hk1 : 1 ≤ env.TransformationCounter)
    (hreach : env.TransformationCounter ≤
      (if env.isCLangOpt then 0 else ((wrappers env).length : Int))) :
    ∃ s1 w s2, collectionTraverse env s env.recordDecls = Except.ok s1 ∧
      env.TransformationCounter ≤ s1.ValidInstanceNum ∧
      s1.TheBaseCXXRD = some w ∧ w ∈ wrappers env ∧ accepts w = true ∧
      (∀ (sx : State) (t : RecordTypeLoc), sx.TheBaseCXXRD = some w →
        ∃ r, VisitRecordTypeLoc env sx t = Except.ok r ∧ r.TheBaseCXXRD = some w) ∧
      rewriteTraverse env s1 env.recordTypeLocs = Except.ok s2 ∧
      s2.TheBaseCXXRD = some w ∧
      (∀ e, removeOuterClass env s2 = Except.error e →
        getLocationUntil env.buffer w.locStart '{' = none) ∧
      HandleTranslationUnit env s ≠ Except.error Fault.nullDeref := by
  obtain ⟨s1, w, s2, _, hs1, hV, _, _, _, hmem, hB1, hs2, hB2, _, _, hrun⟩ :=
    handleTranslationUnit_rewrite_phase env s hwf hq h0 hk1 hreach
  have hacc : accepts w = true := by
    have h := hmem
    simp only [wrappers, wrappersOf, List.mem_filter] at h
    exact h.2
  refine ⟨s1, w, s2, hs1, hV, hB1, hmem, hacc, ?_, hs2, hB2, ?_, ?_⟩
  · intro sx t hsx
    obtain ⟨r, hr, hbr, _⟩ := visitRecordTypeLoc_keeps env sx t w hsx
    exact ⟨r, hr, hbr⟩
  · intro e he
    exact (removeOuterClass_fault env s2 w hB2 e he).2
  · rw [hrun]
    cases hrm : removeOuterClass env s2 with
    | error e =>
      have he := (removeOuterClass_fault env s2 w hB2 e hrm).1
      simp [he]
    | ok s3 =>
      simp only
      split <;> simp

/-- Witness of C14 on `class A \x7b class B \x7b\x7d; \x7d; A::B v;` with target
ordinal 1. -/
theorem rewrite_phase_has_selection_witness :
    ∃ s1 w s2, collectionTraverse (nestedEnv 1 false) initialState
        (nestedEnv 1 false).recordDecls = Except.ok s1 ∧
      (nestedEnv 1 false).TransformationCounter ≤ s1.ValidInstanceNum ∧
      s1.TheBaseCXXRD = some w ∧ w ∈ wrappers (nestedEnv 1 false) ∧ accepts w = true ∧
      (∀ (sx : State) (t : RecordTypeLoc), sx.TheBaseCXXRD = some w →
        ∃ r, VisitRecordTypeLoc (nestedEnv 1 false) sx t = Except.ok r ∧
          r.TheBaseCXXRD = some w) ∧
      rewriteTraverse (nestedEnv 1 false) s1 (nestedEnv 1 false).recordTypeLocs =
        Except.ok s2 ∧
      s2.TheBaseCXXRD = some w ∧
      (∀ e, removeOuterClass (nestedEnv 1 false) s2 = Except.error e →
        getLocationUntil (nestedEnv 1 false).buffer w.locStart '{' = none) ∧
      HandleTranslationUnit (nestedEnv 1 false) initialState ≠ Except.error Fault.nullDeref :=
  rewrite_phase_has_selection (nestedEnv 1 false) initialState (by decide) (by decide)
    (by decide) (by decide) (by decide)

/-- C15: in C mode `HandleTranslationUnit` does not look at the class nodes at all and
sets `ValidInstanceNum` to 0. Hence, for every program and every target ordinal
`k ≥ 1`, outside query-only mode it returns with the max-instance outcome, the counter
at 0, and the selection and the rewriter's edits as before (no edit is issued), whatever
classes the program holds; in query-only mode it returns with the counter at 0 and
nothing else changed. -/
theorem handleTranslationUnit_c_mode (env : Env) (s : State)
    (hc : env.isCLangOpt = true) (hk1 : 1 ≤ env.TransformationCounter) :
    (env.QueryInstanceOnly = false →
      HandleTranslationUnit env s =
        Except.ok { s with ValidInstanceNum := 0,
                           TransError := TransformationError.TransMaxInstanceError }) ∧
    (env.QueryInstanceOnly = true →
      HandleTranslationUnit env s = Except.ok { s with ValidInstanceNum := 0 }) ∧
    (∀ nodes : List RecordDeclNode,
      HandleTranslationUnit { env with recordDecls := nodes } s =
        HandleTranslationUnit env s) := by
  refine ⟨?_, ?_, ?_⟩
  · intro hq
    have hk : env.TransformationCounter > 0 := by omega
    simp only [HandleTranslationUnit, hc, if_true, hq, Bool.false_eq_true, if_false, hk]
  · intro hq
    simp only [HandleTranslationUnit, hc, if_true, hq]
  · intro nodes
    have hk : env.TransformationCounter > 0 := by omega
    simp only [HandleTranslationUnit, hc, if_true, hk]

/-- Witness of C15 on a C-mode run over `class A \x7b class B \x7b\x7d; \x7d; A::B v;`,
whose class `A` the matcher would accept: the outcome is the max-instance error and the
rewriter is still empty. -/
theorem handleTranslationUnit_c_mode_witness :
    wrappers (cModeEnv 1 false) = [classA] ∧
    HandleTranslationUnit (cModeEnv 1 false) initialState =
      Except.ok { initialState with
        ValidInstanceNum := 0, TransError := TransformationError.TransMaxInstanceError } :=
  ⟨by decide,
   (handleTranslationUnit_c_mode (cModeEnv 1 false) initialState rfl (by decide)).1 rfl⟩

end SimplifyNestedClass
